import Mathlib

/-!
Verification of the information-economics teaching tool
(`Simsoft/sim_soft_4.py` and the `LemonMarketSimulator.run` of
`SimTest/APPUITest5.py`).

The Python floats are embedded as exact rationals `ℚ`; `round(x, 2)` and
`round(x)` (nearest integer, ties to even — CPython's `round`) are modelled
exactly on `ℚ` by `pyRound` / `round2`.  The CRRA utility of the moral-hazard
module needs real powers and logarithms, so that one component is embedded
over `ℝ` with values in `EReal` (the source returns `-inf` on non-positive
wealth).
-/

/-- CPython `round(x)`: nearest integer, ties to even. -/
def pyRound (x : ℚ) : ℤ :=
  let f := ⌊x⌋
  let r := x - f
  if r < 1/2 then f
  else if 1/2 < r then f + 1
  else if Even f then f else f + 1

/-- CPython `round(x, 2)`: nearest multiple of `1/100`, ties to even. -/
def round2 (x : ℚ) : ℚ :=
  (pyRound (100 * x) : ℚ) / 100

theorem pyRound_le (x : ℚ) : (pyRound x : ℚ) ≤ x + 1/2 := by
  simp only [pyRound]
  have hf : (⌊x⌋ : ℚ) ≤ x := Int.floor_le x
  split_ifs with h1 h2 h3 <;> push_cast <;> linarith

theorem le_pyRound (x : ℚ) : x - 1/2 ≤ (pyRound x : ℚ) := by
  simp only [pyRound]
  have hf : x - 1 < (⌊x⌋ : ℚ) := Int.sub_one_lt_floor x
  split_ifs with h1 h2 h3 <;> push_cast <;> linarith

theorem pyRound_nonneg {x : ℚ} (hx : 0 ≤ x) : 0 ≤ pyRound x := by
  simp only [pyRound]
  have hf : (0 : ℤ) ≤ ⌊x⌋ := Int.floor_nonneg.mpr hx
  split_ifs with h1 h2 h3 <;> omega

theorem pyRound_floor_le (x : ℚ) : ⌊x⌋ ≤ pyRound x := by
  simp only [pyRound]
  split_ifs <;> omega

theorem pyRound_le_ceil (x : ℚ) : pyRound x ≤ ⌈x⌉ := by
  simp only [pyRound]
  split_ifs with h1 h2 h3
  · exact Int.floor_le_ceil x
  all_goals
    rcases eq_or_lt_of_le (Int.floor_le x) with hfx | hfx
    · exfalso
      rw [← hfx] at h1
      simp at h1
    · have : (⌊x⌋ + 1 : ℤ) ≤ ⌈x⌉ := by
        have h0 : ⌊x⌋ < x := hfx
        have := Int.le_ceil x
        have : (⌊x⌋ : ℚ) < (⌈x⌉ : ℚ) := lt_of_lt_of_le hfx (Int.le_ceil x)
        exact_mod_cast Int.add_one_le_iff.mpr (by exact_mod_cast this)
      omega

theorem pyRound_mono {x y : ℚ} (h : x ≤ y) : pyRound x ≤ pyRound y := by
  rcases lt_or_le ⌊x⌋ ⌊y⌋ with hf | hf
  · calc pyRound x ≤ ⌈x⌉ := pyRound_le_ceil x
    _ ≤ ⌊x⌋ + 1 := Int.ceil_le_floor_add_one x
    _ ≤ ⌊y⌋ := by omega
    _ ≤ pyRound y := pyRound_floor_le y
  · have hfe : ⌊x⌋ = ⌊y⌋ := le_antisymm (Int.floor_le_floor h) hf
    simp only [pyRound]
    rw [hfe]
    have hr : y - ⌊y⌋ ≥ x - ⌊y⌋ := by linarith
    split_ifs with h1 h2 h3 h4 h5 h6 h7 <;> first
    | omega
    | linarith

theorem round2_le (x : ℚ) : round2 x ≤ x + 1/200 := by
  unfold round2
  have := pyRound_le (100 * x)
  linarith

theorem le_round2 (x : ℚ) : x - 1/200 ≤ round2 x := by
  unfold round2
  have := le_pyRound (100 * x)
  linarith

theorem round2_nonneg {x : ℚ} (hx : 0 ≤ x) : 0 ≤ round2 x := by
  unfold round2
  have : (0 : ℤ) ≤ pyRound (100 * x) := pyRound_nonneg (by linarith)
  positivity

theorem round2_mono {x y : ℚ} (h : x ≤ y) : round2 x ≤ round2 y := by
  unfold round2
  have : pyRound (100 * x) ≤ pyRound (100 * y) := pyRound_mono (by linarith)
  have h' : ((pyRound (100 * x) : ℚ)) ≤ ((pyRound (100 * y) : ℚ)) := by
    exact_mod_cast this
  linarith

theorem round2_abs_le (x : ℚ) : |round2 x - x| ≤ 1/200 := by
  rw [abs_le]
  constructor
  · have := le_round2 x; linarith
  · have := round2_le x; linarith

attribute [irreducible] pyRound round2

section PrincipalAgent

/-- The agent's effort choice (`'努力'` = effort, `'偷懒'` = shirk). -/
inductive EffortChoice where
  | effort : EffortChoice
  | shirk : EffortChoice
deriving DecidableEq

/-- `PrincipalAI.propose_contract` of `Simsoft/sim_soft_4.py`
(parameters `res_high res_low p_high p_low U_res` from `PrincipalAI.set`,
costs `c_high c_low` the method's arguments); returns `(w_high, w_low)`. -/
def propose_contract (res_high res_low p_high p_low U_res c_high c_low : ℚ) :
    ℚ × ℚ :=
  let Δc := c_high - c_low
  let Δp := p_high - p_low
  -- 1) Δp ≤ 1e-8 or Y_H ≤ Y_L → fallback 50% share
  if Δp ≤ 1/100000000 ∨ res_high ≤ res_low then
    (round2 ((1/2) * res_high), round2 ((1/2) * res_low))
  else
    -- 2) minimal share satisfying IC
    let ΔY := res_high - res_low
    let b_star := Δc / (Δp * ΔY)
    if 1 < b_star then
      (round2 ((1/2) * res_high), round2 ((1/2) * res_low))
    else
      -- 3) base salary making IR bind
      let E_Y := p_high * res_high + (1 - p_high) * res_low
      let a_star := U_res + c_high - b_star * E_Y
      -- 4) clip w_L up to 0 (raising a_star)
      let w_L0 := a_star + b_star * res_low
      let a_star1 := if w_L0 < 0 then a_star + -w_L0 else a_star
      let w_L1 := if w_L0 < 0 then 0 else w_L0
      -- clip w_H down to Y_H (lowering a_star, recomputing w_L)
      let w_H0 := a_star1 + b_star * res_high
      let a_star2 := if res_high < w_H0 then a_star1 - (w_H0 - res_high)
                     else a_star1
      let w_H1 := if res_high < w_H0 then res_high else w_H0
      let w_L2 := if res_high < w_H0 then max 0 (a_star2 + b_star * res_low)
                  else w_L1
      -- final safety check
      if w_L2 < 0 ∨ w_H1 < 0 ∨ res_high < w_H1 then
        (round2 ((1/2) * res_high), round2 ((1/2) * res_low))
      else
        (round2 w_H1, round2 w_L2)

/-- The incentive-minimal share `b* = Δc / (Δp·ΔY)` of step 2. -/
def b_star (res_high res_low p_high p_low c_high c_low : ℚ) : ℚ :=
  (c_high - c_low) / ((p_high - p_low) * (res_high - res_low))

/-- The base salary `a* = U0 + c_high − b*·E[Y]` of step 3. -/
def a_star (res_high res_low p_high p_low U_res c_high c_low : ℚ) : ℚ :=
  U_res + c_high -
    b_star res_high res_low p_high p_low c_high c_low *
      (p_high * res_high + (1 - p_high) * res_low)

/-- `AgentAI._expected_utility` of `Simsoft/sim_soft_4.py`: the agent's
expected income from wages `(w_high, w_low)` under an effort choice. -/
def expected_utility (p_high p_low cost_high cost_low w_high w_low : ℚ) :
    EffortChoice → ℚ
  | .effort => p_high * (w_high - cost_high) +
      (1 - p_high) * (w_low - cost_high)
  | .shirk => p_low * (w_high - cost_low) +
      (1 - p_low) * (w_low - cost_low)

/-- The agent's best response to a wage pair, ties favouring effort
(spec §4.1 `best_response_effort`, the comparison of
`AgentAI.evaluate_contract`). -/
def best_response_effort (w_high w_low c_high c_low p_high p_low : ℚ) :
    EffortChoice :=
  if expected_utility p_high p_low c_high c_low w_high w_low .shirk ≤
      expected_utility p_high p_low c_high c_low w_high w_low .effort
  then .effort else .shirk


/-- The 50%-share fallback contract satisfies the wage invariant
(up to the 2-decimal rounding) when `0 ≤ res_low ≤ res_high`. -/
theorem fallback_invariant {res_high res_low : ℚ}
    (hY : res_low ≤ res_high) (hY0 : 0 ≤ res_low) :
    0 ≤ round2 ((1/2) * res_low) ∧
    round2 ((1/2) * res_low) ≤ round2 ((1/2) * res_high) ∧
    round2 ((1/2) * res_high) ≤ res_high + 1/200 := by
  refine ⟨round2_nonneg (by linarith), round2_mono (by linarith), ?_⟩
  have := round2_le ((1/2) * res_high)
  linarith


/-- Rounding a wage pair to 2 decimals moves the agent's expected income by
at most `1/200`, and the effort/shirk gap by at most `Δp/100`. -/
theorem eu_round2_bounds (p_high p_low c_high c_low U_res wH wL : ℚ)
    (hp0 : 0 ≤ p_high) (hp1 : p_high ≤ 1) (hΔp : 0 ≤ p_high - p_low)
    (hIR : p_high * wH + (1 - p_high) * wL - c_high = U_res)
    (hIC : (p_high - p_low) * (wH - wL) = c_high - c_low) :
    |expected_utility p_high p_low c_high c_low (round2 wH) (round2 wL)
        .effort - U_res| ≤ 1/200 ∧
    |expected_utility p_high p_low c_high c_low (round2 wH) (round2 wL)
          .effort -
        expected_utility p_high p_low c_high c_low (round2 wH) (round2 wL)
          .shirk| ≤ (p_high - p_low)/100 := by
  simp only [expected_utility]
  have dH := round2_abs_le wH
  have dL := round2_abs_le wL
  rw [abs_le] at dH dL
  have h1p : (0:ℚ) ≤ 1 - p_high := by linarith
  have b1 : p_high * (round2 wH - wH) ≤ p_high * (1/200) :=
    mul_le_mul_of_nonneg_left dH.2 hp0
  have b2 : p_high * (-(1/200)) ≤ p_high * (round2 wH - wH) :=
    mul_le_mul_of_nonneg_left dH.1 hp0
  have b3 : (1 - p_high) * (round2 wL - wL) ≤ (1 - p_high) * (1/200) :=
    mul_le_mul_of_nonneg_left dL.2 h1p
  have b4 : (1 - p_high) * (-(1/200)) ≤ (1 - p_high) * (round2 wL - wL) :=
    mul_le_mul_of_nonneg_left dL.1 h1p
  have b5 : (p_high - p_low) * (round2 wH - wH) ≤ (p_high - p_low) * (1/200) :=
    mul_le_mul_of_nonneg_left dH.2 hΔp
  have b6 : (p_high - p_low) * (-(1/200)) ≤ (p_high - p_low) * (round2 wH - wH) :=
    mul_le_mul_of_nonneg_left dH.1 hΔp
  have b7 : (p_high - p_low) * (round2 wL - wL) ≤ (p_high - p_low) * (1/200) :=
    mul_le_mul_of_nonneg_left dL.2 hΔp
  have b8 : (p_high - p_low) * (-(1/200)) ≤ (p_high - p_low) * (round2 wL - wL) :=
    mul_le_mul_of_nonneg_left dL.1 hΔp
  constructor
  · rw [abs_le]
    constructor <;> nlinarith [b1, b2, b3, b4, hIR]
  · rw [abs_le]
    constructor <;> nlinarith [b5, b6, b7, b8, hIC]

/-- C1 (claim as stated is refuted here): with `res_high = 100`,
`res_low = 0`, `p_high = 4/5`, `p_low = 2/5`, `cost_high = 10`,
`cost_low = 0` and `reservation_utility = 0`, the parameters satisfy
`Δp > 1e-8`, `res_high > res_low` and `b* = 1/4 ≤ 1`, yet the returned
contract `(25, 0)` gives the agent an expected income of `10` under effort —
the participation constraint does not bind at the reservation utility `0`
(the wage-floor clipping of step 4 raised the base salary). -/
theorem propose_contract_IR_binding_cex :
    (1/100000000 : ℚ) < 4/5 - 2/5 ∧ (0:ℚ) < 100 ∧
    b_star 100 0 (4/5) (2/5) 10 0 ≤ 1 ∧
    propose_contract 100 0 (4/5) (2/5) 0 10 0 = (25, 0) ∧
    expected_utility (4/5) (2/5) 10 0 25 0 .effort = 10 ∧
    ¬ (|expected_utility (4/5) (2/5) 10 0 25 0 .effort - 0| ≤ 1/200) := by
  refine ⟨by norm_num, by norm_num, by norm_num [b_star], ?_, ?_, ?_⟩
  · norm_num [propose_contract, round2, pyRound]
  · norm_num [expected_utility]
  · norm_num [expected_utility]

/-- C1 (amended): when `Δp > 1e-8`, `res_high > res_low`,
`cost_high ≥ cost_low`, `p_high ∈ [0,1]`, `b* ≤ 1`, and neither wage clip of
step 4 fires (`a* + b*·res_low ≥ 0` and `a* + b*·res_high ≤ res_high`), the
returned contract binds the participation constraint up to the 2-decimal
wage rounding (`|E[income | effort] − U_res| ≤ 1/200`) and binds the
incentive constraint up to the same rounding
(`|E[income | effort] − E[income | shirk]| ≤ Δp/100`). -/
theorem propose_contract_IR_IC_approx
    (res_high res_low p_high p_low U_res c_high c_low : ℚ)
    (hΔp : 1/100000000 < p_high - p_low)
    (hY : res_low < res_high)
    (hc : c_low ≤ c_high)
    (hp0 : 0 ≤ p_high) (hp1 : p_high ≤ 1)
    (hb : b_star res_high res_low p_high p_low c_high c_low ≤ 1)
    (hL : 0 ≤ a_star res_high res_low p_high p_low U_res c_high c_low +
        b_star res_high res_low p_high p_low c_high c_low * res_low)
    (hH : a_star res_high res_low p_high p_low U_res c_high c_low +
        b_star res_high res_low p_high p_low c_high c_low * res_high ≤
          res_high) :
    |expected_utility p_high p_low c_high c_low
        (propose_contract res_high res_low p_high p_low U_res c_high c_low).1
        (propose_contract res_high res_low p_high p_low U_res c_high c_low).2
        .effort - U_res| ≤ 1/200 ∧
    |expected_utility p_high p_low c_high c_low
        (propose_contract res_high res_low p_high p_low U_res c_high c_low).1
        (propose_contract res_high res_low p_high p_low U_res c_high c_low).2
        .effort -
      expected_utility p_high p_low c_high c_low
        (propose_contract res_high res_low p_high p_low U_res c_high c_low).1
        (propose_contract res_high res_low p_high p_low U_res c_high c_low).2
        .shirk| ≤ (p_high - p_low)/100 := by
  have hne : (p_high - p_low) * (res_high - res_low) ≠ 0 :=
    ne_of_gt (mul_pos (by linarith) (by linarith))
  have hcancel :
      (c_high - c_low) / ((p_high - p_low) * (res_high - res_low)) *
        ((p_high - p_low) * (res_high - res_low)) = c_high - c_low :=
    div_mul_cancel₀ _ hne
  have hB0 : 0 ≤ (c_high - c_low) / ((p_high - p_low) * (res_high - res_low)) :=
    div_nonneg (by linarith) (le_of_lt (mul_pos (by linarith) (by linarith)))
  have hBY : 0 ≤ (c_high - c_low) / ((p_high - p_low) * (res_high - res_low)) *
      (res_high - res_low) := mul_nonneg hB0 (by linarith)
  simp only [b_star] at hb
  simp only [a_star, b_star] at hL hH
  have key : propose_contract res_high res_low p_high p_low U_res c_high c_low
      = (round2 (a_star res_high res_low p_high p_low U_res c_high c_low +
            b_star res_high res_low p_high p_low c_high c_low * res_high),
         round2 (a_star res_high res_low p_high p_low U_res c_high c_low +
            b_star res_high res_low p_high p_low c_high c_low * res_low)) := by
    simp only [propose_contract, a_star, b_star]
    split_ifs with h1 h2 h3 h4 h5 <;>
    first
    | rfl
    | (exfalso; linarith)
    | (exfalso; casesm* _ ∨ _ <;> linarith)
  rw [key]
  exact eu_round2_bounds p_high p_low c_high c_low U_res _ _ hp0 hp1
    (by linarith)
    (by simp only [a_star, b_star]; ring)
    (by simp only [a_star, b_star]; linear_combination hcancel)

/-- Witness for `propose_contract_IR_IC_approx`: at
`(res_high, res_low, p_high, p_low, U_res, c_high, c_low) =
(100, 0, 4/5, 2/5, 10, 10, 0)` every hypothesis holds
(`b* = 1/4`, `a* = 0`, no clipping), and the returned contract `(25, 0)`
satisfies both tolerance bounds. -/
theorem propose_contract_IR_IC_approx_witness :
    ((1/100000000 : ℚ) < 4/5 - 2/5 ∧ (0:ℚ) < 100 ∧ (0:ℚ) ≤ 10 ∧
      (0:ℚ) ≤ 4/5 ∧ (4/5:ℚ) ≤ 1 ∧
      b_star 100 0 (4/5) (2/5) 10 0 ≤ 1 ∧
      0 ≤ a_star 100 0 (4/5) (2/5) 10 10 0 +
        b_star 100 0 (4/5) (2/5) 10 0 * 0 ∧
      a_star 100 0 (4/5) (2/5) 10 10 0 +
        b_star 100 0 (4/5) (2/5) 10 0 * 100 ≤ 100) ∧
    (|expected_utility (4/5) (2/5) 10 0
        (propose_contract 100 0 (4/5) (2/5) 10 10 0).1
        (propose_contract 100 0 (4/5) (2/5) 10 10 0).2 .effort - 10| ≤ 1/200 ∧
     |expected_utility (4/5) (2/5) 10 0
        (propose_contract 100 0 (4/5) (2/5) 10 10 0).1
        (propose_contract 100 0 (4/5) (2/5) 10 10 0).2 .effort -
      expected_utility (4/5) (2/5) 10 0
        (propose_contract 100 0 (4/5) (2/5) 10 10 0).1
        (propose_contract 100 0 (4/5) (2/5) 10 10 0).2 .shirk|
        ≤ (4/5 - 2/5)/100) :=
  ⟨⟨by norm_num, by norm_num, by norm_num, by norm_num, by norm_num,
    by norm_num [b_star], by norm_num [a_star, b_star],
    by norm_num [a_star, b_star]⟩,
   propose_contract_IR_IC_approx 100 0 (4/5) (2/5) 10 10 0
    (by norm_num) (by norm_num) (by norm_num) (by norm_num) (by norm_num)
    (by norm_num [b_star]) (by norm_num [a_star, b_star])
    (by norm_num [a_star, b_star])⟩


/-- C2 (claim as stated is refuted here): with `res_high = 501/500 = 1.002`
and `res_low = 2` (so `res_high ≤ res_low` triggers the fallback branch),
the returned `wage_high` is `0.50`, the 2-decimal rounding of
`0.5·res_high = 0.501` — not the exact 50% share `0.501`. -/
theorem propose_contract_fallback_cex :
    (501/500 : ℚ) ≤ 2 ∧
    propose_contract (501/500) 2 (4/5) (2/5) 0 1 0 = (1/2, 1) ∧
    (propose_contract (501/500) 2 (4/5) (2/5) 0 1 0).1 ≠
      (1/2) * (501/500) := by
  refine ⟨by norm_num, ?_, ?_⟩ <;> norm_num [propose_contract, round2, pyRound]

/-- C2 (amended): whenever `prob_high − prob_low ≤ 1e-8` or
`revenue_high ≤ revenue_low`, `propose_contract` returns the 50%-revenue-share
fallback rounded to 2 decimals: `wage_high = round(0.5·revenue_high, 2)` and
`wage_low = round(0.5·revenue_low, 2)` (which coincides with the exact 50%
share whenever the half-revenues are whole numbers of cents). -/
theorem propose_contract_fallback
    (res_high res_low p_high p_low U_res c_high c_low : ℚ)
    (h : p_high - p_low ≤ 1/100000000 ∨ res_high ≤ res_low) :
    propose_contract res_high res_low p_high p_low U_res c_high c_low =
      (round2 ((1/2) * res_high), round2 ((1/2) * res_low)) := by
  simp only [propose_contract]
  rw [if_pos h]

/-- Witness for `propose_contract_fallback`: at
`(res_high, res_low) = (100, 200)` with `p_high = 4/5 > p_low = 2/5` the
second disjunct holds and the fallback `(50, 100)` is returned. -/
theorem propose_contract_fallback_witness :
    ((4/5 : ℚ) - 2/5 ≤ 1/100000000 ∨ (100:ℚ) ≤ 200) ∧
    propose_contract 100 200 (4/5) (2/5) 0 1 0 =
      (round2 ((1/2) * 100), round2 ((1/2) * 200)) :=
  ⟨Or.inr (by norm_num),
   propose_contract_fallback 100 200 (4/5) (2/5) 0 1 0 (Or.inr (by norm_num))⟩

/-- C3 (claim as stated is refuted here): with `revenue_high = 1 <
revenue_low = 2` (and otherwise valid parameters `p_high = 4/5 > p_low = 2/5`,
`cost_high = 1 > cost_low = 0`), the fallback contract is
`(wage_high, wage_low) = (0.5, 1)`, violating the Contract invariant
`wage_high ≥ wage_low`. -/
theorem propose_contract_invariant_cex :
    propose_contract 1 2 (4/5) (2/5) 0 1 0 = (1/2, 1) ∧
    ¬ ((propose_contract 1 2 (4/5) (2/5) 0 1 0).2 ≤
        (propose_contract 1 2 (4/5) (2/5) 0 1 0).1) := by
  constructor <;> norm_num [propose_contract, round2, pyRound]

/-- C3 (amended): for every parameter choice with `cost_low ≤ cost_high` and
`0 ≤ revenue_low ≤ revenue_high`, the returned contract — through the
fallback branches and both wage clips — satisfies
`wage_high ≥ wage_low ≥ 0` and `wage_high ≤ revenue_high + 1/200`
(affordability up to the 2-decimal rounding of the returned wages). -/
theorem propose_contract_invariant
    (res_high res_low p_high p_low U_res c_high c_low : ℚ)
    (hc : c_low ≤ c_high) (hY : res_low ≤ res_high) (hY0 : 0 ≤ res_low) :
    0 ≤ (propose_contract res_high res_low p_high p_low U_res c_high c_low).2 ∧
    (propose_contract res_high res_low p_high p_low U_res c_high c_low).2 ≤
      (propose_contract res_high res_low p_high p_low U_res c_high c_low).1 ∧
    (propose_contract res_high res_low p_high p_low U_res c_high c_low).1 ≤
      res_high + 1/200 := by
  have hYH0 : (0:ℚ) ≤ res_high := le_trans hY0 hY
  simp only [propose_contract]
  generalize hBdef : (c_high - c_low) /
      ((p_high - p_low) * (res_high - res_low)) = B
  generalize (U_res + c_high -
      B * (p_high * res_high + (1 - p_high) * res_low)) = A
  split_ifs with h1 h2 h3 h4 h5 h6 h7 h8 h9 <;> dsimp only
  case pos => exact fallback_invariant hY hY0
  case pos => exact fallback_invariant hY hY0
  case pos => exact fallback_invariant hY hY0
  case pos => exact fallback_invariant hY hY0
  case pos => exact fallback_invariant hY hY0
  case pos => exact fallback_invariant hY hY0
  all_goals (
    push_neg at h1
    obtain ⟨hΔp, hYlt⟩ := h1
    have hB0 : 0 ≤ B := by
      rw [← hBdef]
      exact div_nonneg (by linarith)
        (le_of_lt (mul_pos (by linarith) (by linarith)))
    have hBY : 0 ≤ B * (res_high - res_low) := mul_nonneg hB0 (by linarith))
  -- leaf: w_L clipped to 0, then w_H clipped to res_high
  · push_neg at h5
    obtain ⟨hL2, hH0, hH1⟩ := h5
    exact ⟨round2_nonneg hL2, round2_mono (max_le hYH0 (by linarith)),
      le_trans (round2_le _) (by linarith)⟩
  -- leaf: w_L clipped to 0, no w_H clip
  · push_neg at h6
    obtain ⟨hL2, hH0, hH1⟩ := h6
    exact ⟨round2_nonneg hL2, round2_mono hH0,
      le_trans (round2_le _) (by linarith)⟩
  -- leaf: no w_L clip, w_H clipped to res_high
  · push_neg at h8
    obtain ⟨hL2, hH0, hH1⟩ := h8
    exact ⟨round2_nonneg hL2, round2_mono (max_le hYH0 (by linarith)),
      le_trans (round2_le _) (by linarith)⟩
  -- leaf: no clipping
  · push_neg at h9
    obtain ⟨hL2, hH0, hH1⟩ := h9
    exact ⟨round2_nonneg hL2, round2_mono (by linarith),
      le_trans (round2_le _) (by linarith)⟩

/-- Witness for `propose_contract_invariant`: at
`(100, 0, 4/5, 2/5, 0, 10, 0)` (a case where the `wage_low` clip fires) the
returned contract `(25, 0)` satisfies the amended invariant. -/
theorem propose_contract_invariant_witness :
    ((0:ℚ) ≤ 10 ∧ (0:ℚ) ≤ 100 ∧ (0:ℚ) ≤ 0) ∧
    (0 ≤ (propose_contract 100 0 (4/5) (2/5) 0 10 0).2 ∧
     (propose_contract 100 0 (4/5) (2/5) 0 10 0).2 ≤
       (propose_contract 100 0 (4/5) (2/5) 0 10 0).1 ∧
     (propose_contract 100 0 (4/5) (2/5) 0 10 0).1 ≤ 100 + 1/200) :=
  ⟨⟨by norm_num, by norm_num, le_refl 0⟩,
   propose_contract_invariant 100 0 (4/5) (2/5) 0 10 0
    (by norm_num) (by norm_num) (le_refl 0)⟩

end PrincipalAgent

section LemonMarket

/-- Construction parameters of `LemonMarketSimulator`
(`V_high`, `V_low`, `beta`, `gamma`). -/
structure LemonParams where
  Vh : ℚ
  Vl : ℚ
  beta : ℚ
  gamma : ℚ

/-- The mutable state of `LemonMarketSimulator`: seller counts, buyer trust
`tau`, and the per-period history lists. -/
structure LemonState where
  high : ℤ
  low : ℤ
  tau : ℚ
  histHigh : List ℤ
  histLow : List ℤ
  histQ : List ℚ
  histTau : List ℚ
  histPrice : List ℚ

namespace LemonMarketSimulator

/-- `LemonMarketSimulator.__init__`: `high = int(round(total_cars * q0))`,
`low = total_cars - high`, `tau = q0`, empty history. -/
def init (total_cars : ℤ) (q0 : ℚ) : LemonState :=
  { high := pyRound (total_cars * q0)
    low := total_cars - pyRound (total_cars * q0)
    tau := q0
    histHigh := [], histLow := [], histQ := [], histTau := [], histPrice := [] }

/-- `LemonMarketSimulator._step` (identical in `Simsoft/sim_soft_4.py` and
`SimTest/APPUITest5.py`): price from trust, proportional high-quality exit
(at least 1, at most the remaining high count) when the price is below
`V_high`, trust update toward the observed quality share clamped to `[0,1]`,
and history logging. -/
def step (P : LemonParams) (s : LemonState) : LemonState :=
  let q_t : ℚ := (s.high : ℚ) / ((max (s.high + s.low) 1 : ℤ) : ℚ)
  let p_t : ℚ := s.tau * P.Vh + (1 - s.tau) * P.Vl
  let high1 : ℤ :=
    if p_t < P.Vh ∧ 0 < s.high then
      let exit_ratio := P.gamma * (1 - p_t / P.Vh)
      let exit_num := max 1 (pyRound ((s.high : ℚ) * exit_ratio))
      s.high - min exit_num s.high
    else s.high
  let tau1 := s.tau + P.beta * (q_t - s.tau)
  let tau2 := max 0 (min 1 tau1)
  { high := high1
    low := s.low
    tau := tau2
    histHigh := s.histHigh ++ [high1]
    histLow := s.histLow ++ [s.low]
    histQ := s.histQ ++ [q_t]
    histTau := s.histTau ++ [tau2]
    histPrice := s.histPrice ++ [p_t] }

/-- `LemonMarketSimulator.run` of `SimTest/APPUITest5.py`: up to `steps`
periods, stopping before a step whenever no high-quality car remains. -/
def run (P : LemonParams) : ℕ → LemonState → LemonState
  | 0, s => s
  | n + 1, s => if s.high = 0 then s else run P n (step P s)

theorem step_tau_bounds (P : LemonParams) (s : LemonState) :
    0 ≤ (step P s).tau ∧ (step P s).tau ≤ 1 := by
  simp only [step]
  exact ⟨le_max_left _ _, max_le (by norm_num) (min_le_left _ _)⟩

theorem step_high_bounds (P : LemonParams) (s : LemonState)
    (h : 0 ≤ s.high) : 0 ≤ (step P s).high ∧ (step P s).high ≤ s.high := by
  simp only [step]
  split_ifs with hc
  · have := hc.2
    omega
  · omega

theorem step_low_eq (P : LemonParams) (s : LemonState) :
    (step P s).low = s.low := rfl

theorem iterate_high_nonneg (P : LemonParams) (total_cars : ℤ) (q0 : ℚ)
    (ht : 0 ≤ total_cars) (hq0 : 0 ≤ q0) :
    ∀ n : ℕ, 0 ≤ ((step P)^[n] (init total_cars q0)).high := by
  intro n
  induction n with
  | zero =>
      simp only [Function.iterate_zero, id_eq, init]
      exact pyRound_nonneg (mul_nonneg (by exact_mod_cast ht) hq0)
  | succ n ih =>
      rw [Function.iterate_succ_apply']
      exact (step_high_bounds P _ ih).1

theorem iterate_low_eq (P : LemonParams) (total_cars : ℤ) (q0 : ℚ) :
    ∀ n : ℕ, ((step P)^[n] (init total_cars q0)).low =
      total_cars - pyRound (total_cars * q0) := by
  intro n
  induction n with
  | zero => rfl
  | succ n ih =>
      rw [Function.iterate_succ_apply', step_low_eq]
      exact ih

theorem init_low_nonneg (total_cars : ℤ) (q0 : ℚ)
    (ht : 0 ≤ total_cars) (hq1 : q0 ≤ 1) :
    0 ≤ total_cars - pyRound (total_cars * q0) := by
  have h1 : pyRound (total_cars * q0) ≤ ⌈(total_cars : ℚ) * q0⌉ :=
    pyRound_le_ceil _
  have h2 : (total_cars : ℚ) * q0 ≤ ((total_cars : ℤ) : ℚ) := by
    calc (total_cars : ℚ) * q0 ≤ (total_cars : ℚ) * 1 :=
          mul_le_mul_of_nonneg_left hq1 (by exact_mod_cast ht)
    _ = (total_cars : ℚ) := mul_one _
  have h3 : ⌈(total_cars : ℚ) * q0⌉ ≤ total_cars := by
    calc ⌈(total_cars : ℚ) * q0⌉ ≤ ⌈((total_cars : ℤ) : ℚ)⌉ :=
          Int.ceil_le_ceil h2
    _ = total_cars := Int.ceil_intCast _
  omega


/-- C4: for every valid construction (`V_high > 0`, `total_cars ≥ 0`,
`initial_high_quality_fraction ∈ [0,1]`) and every number `n` of `step()`
calls, `buyer_trust` lies in `[0,1]` after each step, the seller counts are
non-negative integers, and `high_quality_count` is monotonically
non-increasing from one period to the next. -/
theorem lemon_market_invariants (P : LemonParams) (total_cars : ℤ) (q0 : ℚ)
    (hVh : 0 < P.Vh) (ht : 0 ≤ total_cars) (hq0 : 0 ≤ q0) (hq1 : q0 ≤ 1)
    (n : ℕ) :
    (1 ≤ n → 0 ≤ ((step P)^[n] (init total_cars q0)).tau ∧
      ((step P)^[n] (init total_cars q0)).tau ≤ 1) ∧
    0 ≤ ((step P)^[n] (init total_cars q0)).high ∧
    0 ≤ ((step P)^[n] (init total_cars q0)).low ∧
    ((step P)^[n + 1] (init total_cars q0)).high ≤
      ((step P)^[n] (init total_cars q0)).high := by
  refine ⟨?_, iterate_high_nonneg P total_cars q0 ht hq0 n, ?_, ?_⟩
  · intro hn
    obtain ⟨m, rfl⟩ : ∃ m, n = m + 1 := ⟨n - 1, by omega⟩
    rw [Function.iterate_succ_apply']
    exact step_tau_bounds P _
  · rw [iterate_low_eq]
    exact init_low_nonneg total_cars q0 ht hq1
  · rw [Function.iterate_succ_apply']
    exact (step_high_bounds P _
      (iterate_high_nonneg P total_cars q0 ht hq0 n)).2

/-- Witness for `lemon_market_invariants`: the default construction
(`V_high = 2400 > 0`, `total_cars = 100`, `q0 = 1/2`) after one step. -/
theorem lemon_market_invariants_witness :
    ((0:ℚ) < 2400 ∧ (0:ℤ) ≤ 100 ∧ (0:ℚ) ≤ 1/2 ∧ (1/2:ℚ) ≤ 1) ∧
    ((1 ≤ 1 → 0 ≤ ((step ⟨2400, 1200, 3/10, 1/5⟩)^[1]
        (init 100 (1/2))).tau ∧
      ((step ⟨2400, 1200, 3/10, 1/5⟩)^[1] (init 100 (1/2))).tau ≤ 1) ∧
    0 ≤ ((step ⟨2400, 1200, 3/10, 1/5⟩)^[1] (init 100 (1/2))).high ∧
    0 ≤ ((step ⟨2400, 1200, 3/10, 1/5⟩)^[1] (init 100 (1/2))).low ∧
    ((step ⟨2400, 1200, 3/10, 1/5⟩)^[1 + 1] (init 100 (1/2))).high ≤
      ((step ⟨2400, 1200, 3/10, 1/5⟩)^[1] (init 100 (1/2))).high) :=
  ⟨⟨by norm_num, by norm_num, by norm_num, by norm_num⟩,
   lemon_market_invariants ⟨2400, 1200, 3/10, 1/5⟩ 100 (1/2)
    (by norm_num) (by norm_num) (by norm_num) (by norm_num) 1⟩

/-- C10: a `step()` never touches `low_quality_count` — after any number of
steps it still equals its construction value
`total_cars − round(total_cars·q0)`; a step can only decrease
`high_quality_count`, and it appends exactly one record to each history
list. -/
theorem lemon_step_frame (P : LemonParams) (s : LemonState)
    (hs : 0 ≤ s.high) (total_cars : ℤ) (q0 : ℚ) (n : ℕ) :
    (step P s).low = s.low ∧
    (step P s).high ≤ s.high ∧
    (step P s).histHigh = s.histHigh ++ [(step P s).high] ∧
    (step P s).histLow = s.histLow ++ [s.low] ∧
    ((step P)^[n] (init total_cars q0)).low =
      total_cars - pyRound (total_cars * q0) :=
  ⟨step_low_eq P s, (step_high_bounds P s hs).2, rfl, rfl,
   iterate_low_eq P total_cars q0 n⟩

/-- Witness for `lemon_step_frame`: the default construction after one
step. -/
theorem lemon_step_frame_witness :
    (0 ≤ (init 100 (1/2)).high) ∧
    ((step ⟨2400, 1200, 3/10, 1/5⟩ (init 100 (1/2))).low =
      (init 100 (1/2)).low ∧
    (step ⟨2400, 1200, 3/10, 1/5⟩ (init 100 (1/2))).high ≤
      (init 100 (1/2)).high ∧
    (step ⟨2400, 1200, 3/10, 1/5⟩ (init 100 (1/2))).histHigh =
      (init 100 (1/2)).histHigh ++
        [(step ⟨2400, 1200, 3/10, 1/5⟩ (init 100 (1/2))).high] ∧
    (step ⟨2400, 1200, 3/10, 1/5⟩ (init 100 (1/2))).histLow =
      (init 100 (1/2)).histLow ++ [(init 100 (1/2)).low] ∧
    ((step ⟨2400, 1200, 3/10, 1/5⟩)^[2] (init 100 (1/2))).low =
      100 - pyRound (100 * (1/2))) :=
  ⟨by norm_num [init, pyRound],
   lemon_step_frame ⟨2400, 1200, 3/10, 1/5⟩ (init 100 (1/2))
    (by norm_num [init, pyRound]) 100 (1/2) 2⟩


/-- The concrete scenario of the spec: `total_cars=100, q0=0.5,
V_high=2400, V_low=1200, β=0.3, γ=0.2, max_periods=30`. -/
def demoParams : LemonParams := ⟨2400, 1200, 3/10, 1/5⟩

theorem step_histHigh (P : LemonParams) (s : LemonState) :
    (step P s).histHigh = s.histHigh ++ [(step P s).high] := rfl

theorem demo_step_high (s : LemonState) (hh0 : 0 < s.high)
    (ht2 : s.tau ≤ 1/2) :
    (step demoParams s).high < s.high := by
  simp only [step, demoParams]
  rw [if_pos]
  · generalize pyRound _ = k
    omega
  · exact ⟨by linarith, hh0⟩

theorem demo_step_tau (s : LemonState) (hlow : s.low = 50)
    (hh0 : 0 < s.high) (hh50 : s.high ≤ 50)
    (ht0 : 0 ≤ s.tau) (ht2 : s.tau ≤ 1/2) :
    (step demoParams s).tau ≤ 1/2 := by
  have hmax : max (s.high + s.low) 1 = s.high + 50 := by
    rw [hlow]; exact max_eq_left (by omega)
  have hq2 : (s.high : ℚ) / ((max (s.high + s.low) 1 : ℤ) : ℚ) ≤ 1/2 := by
    rw [hmax]
    push_cast
    rw [div_le_iff₀ (by exact_mod_cast (by omega : (0:ℤ) < s.high + 50))]
    have : (s.high : ℚ) ≤ 50 := by exact_mod_cast hh50
    linarith
  have hq0 : 0 ≤ (s.high : ℚ) / ((max (s.high + s.low) 1 : ℤ) : ℚ) := by
    apply div_nonneg
    · exact_mod_cast hh0.le
    · exact_mod_cast (by omega : (0:ℤ) ≤ max (s.high + s.low) 1)
  simp only [step, demoParams]
  exact max_le (by norm_num) (le_trans (min_le_right _ _) (by linarith))

/-- The inductive invariant along the concrete demo run: bounded counts,
constant `low`, trust at most `1/2`, and a strictly decreasing recorded
high-count history whose last entry is the current high count (seeded with
the initial count 50). -/
def DemoInv (s : LemonState) : Prop :=
  0 ≤ s.high ∧ s.high ≤ 50 ∧ s.low = 50 ∧ 0 ≤ s.tau ∧ s.tau ≤ 1/2 ∧
  List.Chain' (· > ·) ((50:ℤ) :: s.histHigh) ∧
  ((50:ℤ) :: s.histHigh).getLast? = some s.high

theorem demo_step_inv (s : LemonState) (h : DemoInv s)
    (hpos : s.high ≠ 0) : DemoInv (step demoParams s) := by
  obtain ⟨h0, h50, hlow, ht0, ht2, hch, hlast⟩ := h
  have hh0 : 0 < s.high := lt_of_le_of_ne h0 (Ne.symm hpos)
  have hdec := demo_step_high s hh0 ht2
  have hnn := (step_high_bounds demoParams s h0).1
  refine ⟨hnn, by omega, (step_low_eq _ _).trans hlow, (step_tau_bounds demoParams s).1,
    demo_step_tau s hlow hh0 h50 ht0 ht2, ?_, ?_⟩
  · rw [step_histHigh, ← List.cons_append]
    rw [List.chain'_append]
    refine ⟨hch, List.chain'_singleton _, ?_⟩
    intro x hx y hy
    simp only [List.head?_cons, Option.mem_def, Option.some.injEq] at hy
    rw [hlast] at hx
    simp only [Option.mem_def, Option.some.injEq] at hx
    subst hx
    subst hy
    exact hdec
  · rw [step_histHigh, ← List.cons_append, List.getLast?_concat]

theorem demo_run_inv (fuel : ℕ) :
    ∀ s : LemonState, DemoInv s → DemoInv (run demoParams fuel s) := by
  induction fuel with
  | zero => intro s h; exact h
  | succ n ih =>
      intro s h
      rw [run]
      split_ifs with hz
      · exact h
      · exact ih _ (demo_step_inv s h hz)

/-- C5: in the concrete scenario `LemonMarketSimulator(total_cars=100,
q0=0.5, V_high=2400, V_low=1200, β=0.3, γ=0.2, steps=30)`, running to
termination (depletion of high-quality sellers or 30 periods), the recorded
high-quality count strictly decreases from period 1 onward: every recorded
period (starting from the initial count of 50) has strictly fewer
high-quality sellers than the period before it. -/
theorem lemon_demo_strict_decrease :
    List.Chain' (· > ·)
      ((50:ℤ) :: (run demoParams 30 (init 100 (1/2))).histHigh) := by
  have hinit : DemoInv (init 100 (1/2)) := by
    refine ⟨?_, ?_, ?_, ?_, ?_, ?_, ?_⟩ <;>
      norm_num [init, pyRound]
  exact (demo_run_inv 30 (init 100 (1/2)) hinit).2.2.2.2.2.1

section MoralHazard

/-- `MoralHazardModule._simulate` (moral-hazard step): the actual theft
probability — the strategy's base probability (`p_d` if the insured installs
the device, else `p`) plus the moral-hazard increment `q`, clamped to
`[0,1]`. -/
def prob_actual (p p_d q : ℚ) (install_ins : Bool) : ℚ :=
  min (max ((if install_ins then p_d else p) + q) 0) 1

/-- `MoralHazardModule._simulate`: the insurer's extra expected payout
`d·(prob_actual − p)` when the actual probability exceeds the base
probability `p`, else `0`. -/
def extra_loss (p p_d q d : ℚ) (install_ins : Bool) : ℚ :=
  if p < prob_actual p p_d q install_ins
  then d * (prob_actual p p_d q install_ins - p) else 0

/-- C7: with `base_theft_prob = 0.25`, `device_theft_prob = 0.15` and
`moral_hazard_delta = 0`, the clamped actual theft probability never exceeds
the base probability, so the extra expected payout is `0` for every loss
value and every install decision (hence for all four insure/device
strategies). -/
theorem moral_hazard_zero_delta (d : ℚ) (install_ins : Bool) :
    prob_actual (1/4) (3/20) 0 install_ins ≤ 1/4 ∧
    extra_loss (1/4) (3/20) 0 d install_ins = 0 := by
  cases install_ins <;> norm_num [prob_actual, extra_loss]

end MoralHazard

section Signaling

/-- `SignalingModule._on_calculate` of `Simsoft/sim_soft_4.py`:
precondition checks (`a2 > a1` wage premium, `c1 > c2` single crossing),
then the thresholds `e_L = Δa/c1`, `e_H = Δa/c2`, a separating equilibrium
iff `e_L < e_H`, and the midpoint recommendation `e* = (e_L + e_H)/2` when
one exists (`none` otherwise). -/
def compute_thresholds (a1 a2 c1 c2 : ℚ) :
    Except String (ℚ × ℚ × Option ℚ) :=
  if a2 ≤ a1 then .error "必须满足 a2 > a1 (学历溢价)！"
  else if c1 ≤ c2 then .error "必须满足 c1 > c2 (单交叉条件)！"
  else
    let delta_a := a2 - a1
    let e_L := delta_a / c1
    let e_H := delta_a / c2
    if e_L < e_H then .ok (e_L, e_H, some ((e_L + e_H) / 2))
    else .ok (e_L, e_H, none)

/-- C8: under the preconditions `a2 > a1` and `c1 > c2`,
`compute_thresholds` returns `e_L = (a2−a1)/c1` and `e_H = (a2−a1)/c2`, a
separating equilibrium (midpoint recommendation) exactly when `e_L < e_H`
and no recommendation otherwise; in particular for
`(a1, a2, c1, c2) = (1, 2, 1.5, 1)` it returns `e_L = 2/3`, `e_H = 1` and
recommends `e* = 5/6 ≈ 0.833`. -/
theorem compute_thresholds_spec (a1 a2 c1 c2 : ℚ)
    (hw : a1 < a2) (hc : c2 < c1) :
    compute_thresholds a1 a2 c1 c2 =
      (if (a2 - a1)/c1 < (a2 - a1)/c2 then
        Except.ok ((a2 - a1)/c1, (a2 - a1)/c2,
          some (((a2 - a1)/c1 + (a2 - a1)/c2) / 2))
       else Except.ok ((a2 - a1)/c1, (a2 - a1)/c2, none)) ∧
    compute_thresholds 1 2 (3/2) 1 = Except.ok (2/3, 1, some (5/6)) := by
  constructor
  · simp only [compute_thresholds]
    rw [if_neg (not_le.mpr hw), if_neg (not_le.mpr hc)]
  · norm_num [compute_thresholds]

/-- Witness for `compute_thresholds_spec`: the concrete spec scenario
`(1, 2, 1.5, 1)`. -/
theorem compute_thresholds_spec_witness :
    ((1:ℚ) < 2 ∧ (1:ℚ) < 3/2) ∧
    (compute_thresholds 1 2 (3/2) 1 =
      (if ((2:ℚ) - 1)/(3/2) < ((2:ℚ) - 1)/1 then
        Except.ok (((2:ℚ) - 1)/(3/2), ((2:ℚ) - 1)/1,
          some ((((2:ℚ) - 1)/(3/2) + ((2:ℚ) - 1)/1) / 2))
       else Except.ok (((2:ℚ) - 1)/(3/2), ((2:ℚ) - 1)/1, none)) ∧
     compute_thresholds 1 2 (3/2) 1 = Except.ok (2/3, 1, some (5/6))) :=
  ⟨⟨by norm_num, by norm_num⟩,
   compute_thresholds_spec 1 2 (3/2) 1 (by norm_num) (by norm_num)⟩

/-- C9: whenever `a2 ≤ a1` (no wage premium) or `c1 ≤ c2` (single crossing
violated), `compute_thresholds` fails fast with a precondition error and
returns no thresholds. -/
theorem compute_thresholds_precondition_error (a1 a2 c1 c2 : ℚ)
    (h : a2 ≤ a1 ∨ c1 ≤ c2) :
    ∃ msg : String, compute_thresholds a1 a2 c1 c2 = .error msg := by
  by_cases hw : a2 ≤ a1
  · exact ⟨_, by simp only [compute_thresholds]; rw [if_pos hw]⟩
  · rcases h with h | h
    · exact absurd h hw
    · refine ⟨"必须满足 c1 > c2 (单交叉条件)！", ?_⟩
      simp only [compute_thresholds]
      rw [if_neg hw, if_pos h]

/-- Witness for `compute_thresholds_precondition_error`: `a2 = 1 ≤ a1 = 2`
yields the wage-premium error. -/
theorem compute_thresholds_precondition_error_witness :
    ((1:ℚ) ≤ 2 ∨ (3/2:ℚ) ≤ 1) ∧
    ∃ msg : String, compute_thresholds 2 1 (3/2) 1 = .error msg :=
  ⟨Or.inl (by norm_num),
   compute_thresholds_precondition_error 2 1 (3/2) 1 (Or.inl (by norm_num))⟩

end Signaling

section MoralHazardUtility

open Real Filter

/-- `MoralHazardModule._utility` of `Simsoft/sim_soft_4.py`: CRRA utility,
`-inf` for non-positive wealth, `ln w` at the removable singularity
`|γ − 1| < 1e-8`, else `(w^(1−γ) − 1)/(1−γ)`. -/
noncomputable def utility (w gamma : ℝ) : EReal :=
  if w ≤ 0 then ⊥
  else if |gamma - 1| < 1/100000000 then ((Real.log w : ℝ) : EReal)
  else (((w ^ (1 - gamma) - 1) / (1 - gamma) : ℝ) : EReal)

theorem utility_mono (w₁ w₂ γ : ℝ) (h12 : w₁ ≤ w₂) :
    utility w₁ γ ≤ utility w₂ γ := by
  by_cases hw1 : w₁ ≤ 0
  · simp only [utility, if_pos hw1]
    exact bot_le
  · push_neg at hw1
    have hw2 : ¬ w₂ ≤ 0 := by push_neg; linarith
    simp only [utility, if_neg (not_le.mpr hw1), if_neg hw2]
    split_ifs with hγ
    · exact_mod_cast Real.log_le_log hw1 h12
    · have hne : 1 - γ ≠ 0 := by
        intro h
        apply hγ
        have : γ = 1 := by linarith
        simp [this]
      push_neg at hw2
      rcases lt_or_gt_of_ne hne with ht | ht
      · -- 1 - γ < 0: rpow is antitone, division by a negative flips back
        have hp : w₂ ^ (1 - γ) ≤ w₁ ^ (1 - γ) := by
          rw [Real.rpow_def_of_pos hw1, Real.rpow_def_of_pos (by linarith)]
          apply Real.exp_le_exp.mpr
          have hlog : Real.log w₁ ≤ Real.log w₂ := Real.log_le_log hw1 h12
          nlinarith
        have key : (w₁ ^ (1 - γ) - 1) / (1 - γ) -
            (w₂ ^ (1 - γ) - 1) / (1 - γ) =
            (w₁ ^ (1 - γ) - w₂ ^ (1 - γ)) / (1 - γ) := by ring
        have hdiv : (w₁ ^ (1 - γ) - w₂ ^ (1 - γ)) / (1 - γ) ≤ 0 :=
          div_nonpos_of_nonneg_of_nonpos (by linarith) ht.le
        have : (w₁ ^ (1 - γ) - 1) / (1 - γ) ≤
            (w₂ ^ (1 - γ) - 1) / (1 - γ) := by linarith
        exact_mod_cast this
      · -- 0 < 1 - γ: rpow is monotone
        have hp : w₁ ^ (1 - γ) ≤ w₂ ^ (1 - γ) :=
          Real.rpow_le_rpow hw1.le h12 ht.le
        have key : (w₂ ^ (1 - γ) - 1) / (1 - γ) -
            (w₁ ^ (1 - γ) - 1) / (1 - γ) =
            (w₂ ^ (1 - γ) - w₁ ^ (1 - γ)) / (1 - γ) := by ring
        have hdiv : 0 ≤ (w₂ ^ (1 - γ) - w₁ ^ (1 - γ)) / (1 - γ) :=
          div_nonneg (by linarith) ht.le
        have : (w₁ ^ (1 - γ) - 1) / (1 - γ) ≤
            (w₂ ^ (1 - γ) - 1) / (1 - γ) := by linarith
        exact_mod_cast this

theorem crra_tendsto_log (x : ℝ) (hx : 0 < x) :
    Tendsto (fun g : ℝ => (x ^ (1 - g) - 1) / (1 - g))
      (nhdsWithin 1 {(1:ℝ)}ᶜ) (nhds (Real.log x)) := by
  have hd : HasDerivAt (fun t : ℝ => x ^ t) (Real.log x) 0 := by
    have h1 : HasDerivAt (fun t : ℝ => Real.log x * t) (Real.log x) 0 := by
      simpa using (hasDerivAt_id (0:ℝ)).const_mul (Real.log x)
    have h2 := h1.exp
    simp only [mul_zero, Real.exp_zero, one_mul] at h2
    have hfun : (fun t : ℝ => Real.exp (Real.log x * t)) =
        fun t : ℝ => x ^ t := by
      funext t
      rw [Real.rpow_def_of_pos hx]
    rwa [hfun] at h2
  have hslope := hasDerivAt_iff_tendsto_slope.mp hd
  have hslope' : Tendsto (fun t : ℝ => (x ^ t - 1) / t)
      (nhdsWithin 0 {(0:ℝ)}ᶜ) (nhds (Real.log x)) := by
    apply hslope.congr'
    filter_upwards [self_mem_nhdsWithin] with t ht
    simp only [slope_def_field, Real.rpow_zero, sub_zero]
  have hmap : Tendsto (fun g : ℝ => 1 - g) (nhdsWithin 1 {(1:ℝ)}ᶜ)
      (nhdsWithin 0 {(0:ℝ)}ᶜ) := by
    rw [tendsto_nhdsWithin_iff]
    constructor
    · have hc : Tendsto (fun g : ℝ => 1 - g) (nhds 1) (nhds 0) := by
        have h0 : Tendsto (fun g : ℝ => g) (nhds (1:ℝ)) (nhds 1) := tendsto_id
        have h1 := h0.const_sub (1:ℝ)
        simpa using h1
      exact hc.mono_left nhdsWithin_le_nhds
    · filter_upwards [self_mem_nhdsWithin] with g hg
      simp only [Set.mem_compl_iff, Set.mem_singleton_iff] at hg ⊢
      intro h0
      apply hg
      linarith
  exact hslope'.comp hmap

/-- C6: the CRRA utility is non-decreasing in wealth for every `γ`
(with `-∞` below zero wealth ordering below everything); it returns `⊥` for
`w ≤ 0`, `ln w` when `|γ−1| < 1e-8`, and `(w^(1−γ)−1)/(1−γ)` otherwise; and
the generic CRRA formula tends to `ln x` as `γ` approaches 1, so
`utility(x, 1.0)` (which is `ln x`) agrees with the generic formula just
beside the removable singularity. -/
theorem crra_utility_spec (w₁ w₂ γ x : ℝ) (h12 : w₁ ≤ w₂) (hx : 0 < x) :
    utility w₁ γ ≤ utility w₂ γ ∧
    (w₁ ≤ 0 → utility w₁ γ = ⊥) ∧
    (|γ - 1| < 1/100000000 → utility x γ = ((Real.log x : ℝ) : EReal)) ∧
    (¬ |γ - 1| < 1/100000000 →
      utility x γ = (((x ^ (1 - γ) - 1) / (1 - γ) : ℝ) : EReal)) ∧
    utility x 1 = ((Real.log x : ℝ) : EReal) ∧
    Tendsto (fun g : ℝ => (x ^ (1 - g) - 1) / (1 - g))
      (nhdsWithin 1 {(1:ℝ)}ᶜ) (nhds (Real.log x)) := by
  refine ⟨utility_mono w₁ w₂ γ h12, ?_, ?_, ?_, ?_, crra_tendsto_log x hx⟩
  · intro h
    simp [utility, h]
  · intro h
    simp only [utility, if_neg (not_le.mpr hx), if_pos h]
  · intro h
    simp only [utility, if_neg (not_le.mpr hx), if_neg h]
  · simp only [utility, if_neg (not_le.mpr hx)]
    rw [if_pos (by norm_num)]

/-- Witness for `crra_utility_spec`: wealths `1 ≤ 2`, `γ = 0`, `x = 1`. -/
theorem crra_utility_spec_witness :
    (1:ℝ) ≤ 2 ∧ (0:ℝ) < 1 ∧ utility 1 0 ≤ utility 2 0 :=
  ⟨by norm_num, by norm_num,
   (crra_utility_spec 1 2 0 1 (by norm_num) (by norm_num)).1⟩

end MoralHazardUtility
